import Mathlib

/-!
Verification of the macro-invocation analyzer in `src/Cpp2CASTConsumer.cc`
(`cpp2c::Cpp2CASTConsumer::HandleTranslationUnit` and its helper functions).

The development shallowly embeds the data the evaluator consumes and the
computation it performs on each top-level macro expansion:

* Clang statements are embedded as finite rose trees (`Stmt`).  The C++ code
  manipulates `std::set<const clang::Stmt *>`, i.e. sets of node identities;
  node identity is embedded as the `sid` field, and set membership as
  `memNode` (identity comparison).  Theorems that depend on identities being
  genuine pointers carry a `Nodup` hypothesis on the sids of the
  translation unit.
* The translation-unit-wide matcher passes (`AllDeclRefExprs`, ...) are
  embedded as filters over the node list of the translation unit.
* The C++ record computation declares most of its `bool` locals without an
  initializer (lines 617-666); a flag that is emitted without ever being
  assigned therefore holds an indeterminate value.  The embedding makes the
  indeterminacy explicit: `JunkEnv` carries one arbitrary boolean per local
  that is only conditionally assigned, and `evalRecord` returns the
  environment's value on exactly the paths on which the C++ code never
  assigns the local.
-/

namespace cpp2c

/-- Embeds `clang::Type` as far as the analyzed code inspects it:
`isVoidType()` and `isArrayType()`. -/
structure TypeV where
  isVoidType : Bool
  isArrayType : Bool
deriving DecidableEq

/-- Embeds `clang::QualType` as far as the analyzed code inspects it:
`isNull()` and `getTypePtrOrNull()`. -/
structure QualType where
  isNull : Bool
  typePtr : Option TypeV
deriving DecidableEq

/-- Embeds the declaration referenced by a `DeclRefExpr`: whether it is a
`clang::VarDecl` (the evaluator's `dyn_cast<clang::VarDecl>` at line 466)
and whether `hasLocalStorage()` holds for it (line 467). -/
structure DeclV where
  isVarDecl : Bool
  hasLocalStorage : Bool
deriving DecidableEq

/-- Kinds of AST ancestor nodes distinguished by
`isDescendantOfStmtRequiringICE` (lines 200-237): `clang::CaseStmt`,
`clang::EnumDecl`, `clang::FieldDecl` (with its bit-field flag) and
`clang::VarDecl` (with the variable's type, queried for array-ness).  All
other dynamic node kinds are `otherNode`. -/
inductive DynNodeKind where
  | caseStmt
  | enumDecl
  | fieldDecl (isBitField : Bool)
  | varDecl (declType : QualType)
  | otherNode
deriving DecidableEq

/-- Dynamic class of an embedded statement, as far as the evaluator
dispatches on it: `clang::DeclRefExpr`, the four control-flow statements
checked at lines 1020-1023, any other expression, any other statement.
`declRefExpr` and `exprOther` are the classes for which
`clang::dyn_cast<clang::Expr>` succeeds. -/
inductive StmtKind where
  | declRefExpr
  | returnStmt
  | breakStmt
  | continueStmt
  | gotoStmt
  | exprOther
  | stmtOther
deriving DecidableEq

/-- Per-node data of an embedded statement.

* `sid` is the node's identity (the `clang::Stmt *` pointer value).
* `decl` is the referenced declaration, meaningful when `kind` is
  `declRefExpr`.
* `qt` is `getType()`, meaningful when the node is an expression.
* `isICE` is the result of `isIntegerConstantExpr(Ctx)` (line 947),
  an opaque semantic query of the host front end.
* `ancestors` is the breadth-first enumeration of the node's transitive
  parents (`Ctx.getParents`, iterated), which is what the queue in
  `isDescendantOfStmtRequiringICE` visits. -/
structure StmtInfo where
  sid : Nat
  kind : StmtKind
  decl : DeclV
  qt : QualType
  isICE : Bool
  ancestors : List DynNodeKind
deriving DecidableEq

/-- Embedded `clang::Stmt`: a finite tree with per-node `StmtInfo` and the
`children()` list. -/
inductive Stmt where
  | mk (info : StmtInfo) (children : List Stmt)

/-- Node data of a statement. -/
def Stmt.info : Stmt → StmtInfo
  | .mk i _ => i

/-- Child list of a statement (`children()`). -/
def Stmt.children : Stmt → List Stmt
  | .mk _ cs => cs

mutual

/-- Structural equality test for embedded statements. -/
def Stmt.beq : Stmt → Stmt → Bool
  | .mk i cs, .mk i' cs' => i = i' && Stmt.beqList cs cs'

/-- Structural equality test for lists of embedded statements. -/
def Stmt.beqList : List Stmt → List Stmt → Bool
  | [], [] => true
  | c :: cs, c' :: cs' => Stmt.beq c c' && Stmt.beqList cs cs'
  | _, _ => false

end

mutual

/-- Structural decidable equality for embedded statements. -/
def Stmt.decEq : (a b : Stmt) → Decidable (a = b)
  | .mk i cs, .mk i' cs' =>
    if h1 : i = i' then
      match Stmt.decEqList cs cs' with
      | isTrue h2 => isTrue (by rw [h1, h2])
      | isFalse h2 => isFalse (by intro h; cases h; exact h2 rfl)
    else isFalse (by intro h; cases h; exact h1 rfl)

/-- Structural decidable equality for lists of embedded statements. -/
def Stmt.decEqList : (a b : List Stmt) → Decidable (a = b)
  | [], [] => isTrue rfl
  | [], _ :: _ => isFalse (by intro h; cases h)
  | _ :: _, [] => isFalse (by intro h; cases h)
  | c :: cs, c' :: cs' =>
    match Stmt.decEq c c', Stmt.decEqList cs cs' with
    | isTrue h1, isTrue h2 => isTrue (by rw [h1, h2])
    | isFalse h1, _ => isFalse (by intro h; cases h; exact h1 rfl)
    | _, isFalse h2 => isFalse (by intro h; cases h; exact h2 rfl)

end

instance : DecidableEq Stmt := Stmt.decEq

mutual

/-- Embeds `subtrees` (lines 31-47) on a non-null statement: the node
itself together with all of its transitive children.  The C++ function
collects them into a `std::set` by breadth-first search; the embedding
returns the same collection of nodes as a list (only membership in the
result is ever used). -/
def Stmt.subnodes : Stmt → List Stmt
  | .mk i cs => .mk i cs :: Stmt.subnodesList cs

/-- All subtree nodes of each statement in a list, concatenated. -/
def Stmt.subnodesList : List Stmt → List Stmt
  | [] => []
  | c :: cs => c.subnodes ++ Stmt.subnodesList cs

end

/-- Embeds `subtrees` (lines 31-47) including its null case: a null
statement has no subtrees (lines 34-35). -/
def subtrees : Option Stmt → List Stmt
  | none => []
  | some st => st.subnodes

/-- Membership of a node in a `std::set<const clang::Stmt *>`: the set
holds node identities, so the test compares `sid`s. -/
def memNode (x : Stmt) (l : List Stmt) : Bool :=
  l.any (fun y => y.info.sid = x.info.sid)

/-- True exactly when `dyn_cast<clang::Expr>` succeeds on the node. -/
def Stmt.isExpr (s : Stmt) : Bool :=
  match s.info.kind with
  | .declRefExpr => true
  | .exprOther => true
  | _ => false

/-- True exactly when the node is a `ReturnStmt`, `ContinueStmt`,
`BreakStmt` or `GotoStmt` (the predicate at lines 1018-1024). -/
def Stmt.isControlFlowStmt (s : Stmt) : Bool :=
  match s.info.kind with
  | .returnStmt => true
  | .breakStmt => true
  | .continueStmt => true
  | .gotoStmt => true
  | _ => false

/-! Embedding of `skipImplicitAndParens` (lines 49-58).  The C++ loop only
inspects whether the current expression is a `ParenExpr` or an
`ImplicitCastExpr` and, if so, steps to `getSubExpr()` (which may be
null); `CExpr` embeds exactly that view of expressions. -/

/-- Expressions as seen by `skipImplicitAndParens`: a `ParenExpr` or
`ImplicitCastExpr` with its sub-expression (the `...Null` constructors
are the nodes whose `getSubExpr()` is null), or any other expression. -/
inductive CExpr where
  | parenExpr (sub : CExpr)
  | parenExprNull
  | implicitCastExpr (sub : CExpr)
  | implicitCastExprNull
  | otherExpr (tag : Nat)
deriving DecidableEq

/-- True when the expression is a `clang::ParenExpr`. -/
def CExpr.isParenExpr : CExpr → Bool
  | .parenExpr _ => true
  | .parenExprNull => true
  | _ => false

/-- True when the expression is a `clang::ImplicitCastExpr`. -/
def CExpr.isImplicitCastExpr : CExpr → Bool
  | .implicitCastExpr _ => true
  | .implicitCastExprNull => true
  | _ => false

/-- The loop of `skipImplicitAndParens` (lines 51-56), starting from a
non-null expression. -/
def skipSome : CExpr → Option CExpr
  | .parenExpr s => skipSome s
  | .parenExprNull => none
  | .implicitCastExpr s => skipSome s
  | .implicitCastExprNull => none
  | .otherExpr t => some (.otherExpr t)

/-- Embeds `skipImplicitAndParens` (lines 49-58): repeatedly strips
`ParenExpr` and `ImplicitCastExpr` wrappers, propagating null. -/
def skipImplicitAndParens : Option CExpr → Option CExpr
  | none => none
  | some e => skipSome e

/-- The per-ancestor test of `isDescendantOfStmtRequiringICE`
(lines 214-231): `CaseStmt` or `EnumDecl`; a `FieldDecl` that
`isBitField()`; a `VarDecl` whose type is non-null, has a non-null type
pointer, and `isArrayType()`. -/
def nodeRequiresICE : DynNodeKind → Bool
  | .caseStmt => true
  | .enumDecl => true
  | .fieldDecl b => b
  | .varDecl qt =>
      if qt.isNull then false
      else
        match qt.typePtr with
        | some t => t.isArrayType
        | none => false
  | .otherNode => false

/-- The worklist loop of `isDescendantOfStmtRequiringICE` (lines 206-236)
over the breadth-first enumeration of the statement's transitive parents,
returning `true` as soon as a qualifying ancestor is dequeued. -/
def searchAncestors : List DynNodeKind → Bool
  | [] => false
  | k :: rest => if nodeRequiresICE k then true else searchAncestors rest

/-- Embeds `isDescendantOfStmtRequiringICE` (lines 200-237): false for a
null statement (lines 203-204), otherwise a worklist search over the
statement's transitive parents. -/
def isDescendantOfStmtRequiringICE : Option Stmt → Bool
  | none => false
  | some st => searchAncestors st.info.ancestors

/-- Embeds `clang::TypeLoc` as far as the evaluator inspects it:
`getType()` (line 734). -/
structure TypeLocV where
  qt : QualType
deriving DecidableEq

/-- Embeds `cpp2c::DeclStmtTypeLoc`, the tagged union of AST roots: an
aligned declaration (only its presence is inspected), statement, or type
location. -/
structure DSTL where
  D : Bool
  ST : Option Stmt
  TL : Option TypeLocV

/-- Embeds `cpp2c::MacroExpansionArgument` as far as the evaluator reads
it: the AST roots the aligner attached to the argument and
`NumExpansions`, the number of times the argument is expanded in the
macro body. -/
structure MacroExpansionArgument where
  AlignedRoots : List DSTL
  NumExpansions : Nat

/-- Embeds `cpp2c::MacroExpansionNode` as far as the record computation
reads it: name, depth, whether the invocation sits inside another macro's
argument, `MI->isObjectLike()`, the two token-level flags, the AST roots
and aligned root attached by the aligner, and the argument list.
`AlignedRoot` and the arguments' `AlignedRoots` are produced by
`findAlignedASTNodesForExpansion`, which is outside the analyzed
translation unit; they are unconstrained inputs here. -/
structure MacroExpansionNode where
  Name : String
  Depth : Nat
  InMacroArg : Bool
  isObjectLike : Bool
  HasStringification : Bool
  HasTokenPasting : Bool
  ASTRoots : List DSTL
  AlignedRoot : Option DSTL
  Arguments : List MacroExpansionArgument

/-- Translation-unit-wide inputs of the evaluator: the statement forest of
the host AST (over which the matcher passes run) and the set of macro
names the preprocessor inspected in conditionals
(`DC->InspectedMacroNames`). -/
structure TUContext where
  tuRoots : List Stmt
  inspectedMacroNames : List String

/-- All statement nodes of the translation unit (the universe the
`MatchFinder` passes traverse). -/
def allNodes (tu : TUContext) : List Stmt :=
  Stmt.subnodesList tu.tuRoots

/-- Embeds the `AllDeclRefExprs` matcher pass (lines 442-456): every
`DeclRefExpr` in the translation unit.  The matcher's
`unless(anyOf(implicitCastExpr(), implicitValueInitExpr()))` clause is
vacuous on nodes already matched by `declRefExpr()` and adds no
condition. -/
def allDeclRefExprs (tu : TUContext) : List Stmt :=
  (allNodes tu).filter (fun s => s.info.kind = .declRefExpr)

/-- Embeds `DeclRefExprsOfLocallyDefinedDecls` (lines 461-470): the
`DeclRefExpr`s whose declaration is a `VarDecl` with
`hasLocalStorage()`. -/
def declRefExprsOfLocallyDefinedDecls (tu : TUContext) : List Stmt :=
  (allDeclRefExprs tu).filter
    (fun s => s.info.decl.isVarDecl && s.info.decl.hasLocalStorage)

/-- One arbitrary boolean per conditionally-assigned `bool` local of the
record computation (lines 617-666).  The C++ code declares these locals
without an initializer; on the paths on which a local is never assigned,
the emitted value is the indeterminate value this environment supplies. -/
structure JunkEnv where
  HasSameNameAsOtherDeclaration : Bool
  DoesBodyContainDeclRefExpr : Bool
  IsHygienic : Bool
  IsInvokedWhereICERequired : Bool
  IsExpansionICE : Bool
  IsExpansionTypeNull : Bool
  IsExpansionTypeVoid : Bool
  DoesAnyArgumentContainDeclRefExpr : Bool
  IsAnyArgumentNeverExpanded : Bool
  IsAnyArgumentNotAnExpression : Bool
  IsAnyArgumentTypeNull : Bool
  IsAnyArgumentTypeVoid : Bool
deriving DecidableEq

/-- The fields of the emitted top-level record (lines 1041-1104) that this
development models.  Fields whose computation is not modelled (location
strings, the deep type-chasing flags, the side-effect and short-circuit
flags, and the type-signature string) are omitted; every field present
is computed exactly as in the source. -/
structure RecordOut where
  Name : String
  ASTKind : String
  InvocationDepth : Nat
  NumASTRoots : Nat
  NumArguments : Nat
  HasStringification : Bool
  HasTokenPasting : Bool
  HasAlignedArguments : Bool
  HasSameNameAsOtherDeclaration : Bool
  DoesExpansionHaveControlFlowStmt : Bool
  DoesBodyContainDeclRefExpr : Bool
  IsHygienic : Bool
  IsObjectLike : Bool
  IsInvokedInMacroArgument : Bool
  IsNamePresentInCPPConditional : Bool
  IsExpansionICE : Bool
  IsExpansionTypeNull : Bool
  IsExpansionTypeVoid : Bool
  DoesAnyArgumentContainDeclRefExpr : Bool
  IsInvokedWhereICERequired : Bool
  IsAnyArgumentNeverExpanded : Bool
  IsAnyArgumentNotAnExpression : Bool
  IsAnyArgumentTypeNull : Bool
  IsAnyArgumentTypeVoid : Bool
deriving DecidableEq

/-- Embeds `HasAlignedArguments` (lines 748-752): every argument has
exactly as many aligned AST roots as expansions in the body. -/
def hasAlignedArguments (exp : MacroExpansionNode) : Bool :=
  exp.Arguments.all (fun a => a.AlignedRoots.length = a.NumExpansions)

/-- Embeds `StmtsExpandedFromArguments` (lines 755-767): declared empty,
and filled only under `HasAlignedArguments` with the subtrees of every
aligned root of every argument. -/
def stmtsExpandedFromArguments (exp : MacroExpansionNode) : List Stmt :=
  if hasAlignedArguments exp then
    exp.Arguments.flatMap (fun a => a.AlignedRoots.flatMap (fun r => subtrees r.ST))
  else []

/-- The aligned statement of the expansion:
`Exp->AlignedRoot && Exp->AlignedRoot->ST`. -/
def alignedStmt (exp : MacroExpansionNode) : Option Stmt :=
  match exp.AlignedRoot with
  | some root => root.ST
  | none => none

/-- The guard of the macro-body block (line 840):
`Exp->AlignedRoot && Exp->AlignedRoot->ST && HasAlignedArguments`,
returning the aligned statement when the block runs. -/
def inBodyBranch (exp : MacroExpansionNode) : Option Stmt :=
  match alignedStmt exp with
  | some st => if hasAlignedArguments exp then some st else none
  | none => none

/-- Embeds `StmtsExpandedFromBody` (lines 838-848): declared empty, and
filled only in the macro-body block with the subtrees of the aligned
statement minus every node already in `StmtsExpandedFromArguments`
(the `erase` loop removes by node identity). -/
def stmtsExpandedFromBody (exp : MacroExpansionNode) : List Stmt :=
  match inBodyBranch exp with
  | some st =>
      st.subnodes.filter (fun s => !(memNode s (stmtsExpandedFromArguments exp)))
  | none => []

/-- The guard of the expression sub-block (line 923):
the macro-body block runs and `dyn_cast<clang::Expr>` succeeds on the
aligned statement. -/
def inExprBranch (exp : MacroExpansionNode) : Option Stmt :=
  match inBodyBranch exp with
  | some st => if st.isExpr then some st else none
  | none => none

/-- Embeds the computation of `ASTKind` (lines 712-743 and the refinement
to `"Expr"` at line 925): `"Stmt"`, `"Decl"` or `"TypeLoc"` from the
aligned root's tag, `"Expr"` when the expression sub-block runs, the
empty string (its initial value) otherwise. -/
def astKind_code (exp : MacroExpansionNode) : String :=
  match exp.AlignedRoot with
  | none => ""
  | some root =>
    match root.ST with
    | some st =>
        if hasAlignedArguments exp && st.isExpr then "Expr" else "Stmt"
    | none =>
      if root.D then "Decl"
      else
        match root.TL with
        | some _ => "TypeLoc"
        | none => ""

/-- Embeds the computation of `IsExpansionTypeNull`.  In the `TypeLoc`
branch (line 735) the flag is `QT.isNull()`.  In the expression sub-block
(line 930) the source computes `!(QT.isNull() || T == nullptr)` — note
the leading negation, reproduced here exactly as written.  On every other
path the local is never assigned and holds its indeterminate value. -/
def isExpansionTypeNull_code (env : JunkEnv) (exp : MacroExpansionNode) : Bool :=
  match exp.AlignedRoot with
  | none => env.IsExpansionTypeNull
  | some root =>
    match root.ST with
    | some st =>
        if hasAlignedArguments exp && st.isExpr then
          !(st.info.qt.isNull || st.info.qt.typePtr.isNone)
        else env.IsExpansionTypeNull
    | none =>
      if root.D then env.IsExpansionTypeNull
      else
        match root.TL with
        | some tl => tl.qt.isNull
        | none => env.IsExpansionTypeNull

/-- Embeds the computation of `IsExpansionTypeVoid` (line 934): assigned
`T->isVoidType()` only in the expression sub-block and only when the type
pointer is non-null; otherwise it keeps its indeterminate value. -/
def isExpansionTypeVoid_code (env : JunkEnv) (exp : MacroExpansionNode) : Bool :=
  match inExprBranch exp with
  | some st =>
    match st.info.qt.typePtr with
    | some t => t.isVoidType
    | none => env.IsExpansionTypeVoid
  | none => env.IsExpansionTypeVoid

/-- Embeds the computation of `IsExpansionICE` (line 947): assigned
`E->isIntegerConstantExpr(Ctx)` only in the expression sub-block;
otherwise it keeps its indeterminate value. -/
def isExpansionICE_code (env : JunkEnv) (exp : MacroExpansionNode) : Bool :=
  match inExprBranch exp with
  | some st => st.info.isICE
  | none => env.IsExpansionICE

/-- Embeds the computation of `DoesBodyContainDeclRefExpr` (lines
875-878): assigned only in the macro-body block, where it tests whether
any `DeclRefExpr` of the translation unit is in `StmtsExpandedFromBody`;
otherwise it keeps its indeterminate value. -/
def doesBodyContainDeclRefExpr_code
    (env : JunkEnv) (tu : TUContext) (exp : MacroExpansionNode) : Bool :=
  match inBodyBranch exp with
  | some _ =>
      (allDeclRefExprs tu).any (fun d => memNode d (stmtsExpandedFromBody exp))
  | none => env.DoesBodyContainDeclRefExpr

/-- Embeds the computation of `IsHygienic` (lines 899-902): assigned only
in the macro-body block, where it is `std::none_of` over the
`DeclRefExpr`s of locally defined declarations, tested for membership in
`StmtsExpandedFromBody`; otherwise it keeps its indeterminate value. -/
def isHygienic_code
    (env : JunkEnv) (tu : TUContext) (exp : MacroExpansionNode) : Bool :=
  match inBodyBranch exp with
  | some _ =>
      !((declRefExprsOfLocallyDefinedDecls tu).any
          (fun d => memNode d (stmtsExpandedFromBody exp)))
  | none => env.IsHygienic

/-- Embeds the computation of `IsInvokedWhereICERequired` (lines 916-917):
assigned only in the macro-body block, where it calls
`isDescendantOfStmtRequiringICE` on the aligned statement; otherwise it
keeps its indeterminate value. -/
def isInvokedWhereICERequired_code
    (env : JunkEnv) (exp : MacroExpansionNode) : Bool :=
  match inBodyBranch exp with
  | some st => isDescendantOfStmtRequiringICE (some st)
  | none => env.IsInvokedWhereICERequired

/-- Embeds the computation of `DoesAnyArgumentContainDeclRefExpr` (lines
780-783): assigned only under `HasAlignedArguments`, where it tests
whether any `DeclRefExpr` of the translation unit is in
`StmtsExpandedFromArguments`; otherwise it keeps its indeterminate
value. -/
def doesAnyArgumentContainDeclRefExpr_code
    (env : JunkEnv) (tu : TUContext) (exp : MacroExpansionNode) : Bool :=
  if hasAlignedArguments exp then
    (allDeclRefExprs tu).any (fun d => memNode d (stmtsExpandedFromArguments exp))
  else env.DoesAnyArgumentContainDeclRefExpr

/-- Embeds the computation of `DoesExpansionHaveControlFlowStmt` (lines
1009-1024): whether the union of `StmtsExpandedFromBody` and
`StmtsExpandedFromArguments` contains a `return`, `continue`, `break` or
`goto` statement.  This local is assigned on every path. -/
def doesExpansionHaveControlFlowStmt_code (exp : MacroExpansionNode) : Bool :=
  (stmtsExpandedFromBody exp ++ stmtsExpandedFromArguments exp).any
    Stmt.isControlFlowStmt

/-- State of the per-argument flags mutated by the argument loop
(lines 959-1002). -/
structure ArgFlagsState where
  IsAnyArgumentNeverExpanded : Bool
  IsAnyArgumentNotAnExpression : Bool
  IsAnyArgumentTypeNull : Bool
  IsAnyArgumentTypeVoid : Bool
deriving DecidableEq

/-- One iteration of the argument loop (lines 960-1002):

* `IsAnyArgumentNeverExpanded = Arg.AlignedRoots.empty()` — a plain
  assignment (line 966), reproduced exactly as written;
* `continue` when the argument has no aligned roots (lines 968-969);
* `IsAnyArgumentNotAnExpression |= (E == nullptr)` where `E` is
  `dyn_cast_or_null<clang::Expr>` of the first aligned root's statement
  (lines 971-974);
* `continue` when `E` is null (lines 978-979);
* `IsAnyArgumentTypeNull |= QT.isNull() || T == nullptr` (line 986);
* `IsAnyArgumentTypeVoid = T->isVoidType()` when `T` is non-null — again
  a plain assignment (line 990). -/
def argLoopStep (st : ArgFlagsState) (arg : MacroExpansionArgument) : ArgFlagsState :=
  let st := { st with IsAnyArgumentNeverExpanded := arg.AlignedRoots.isEmpty }
  match arg.AlignedRoots with
  | [] => st
  | r :: _ =>
    let eOpt : Option Stmt :=
      match r.ST with
      | some s => if s.isExpr then some s else none
      | none => none
    let st := { st with
      IsAnyArgumentNotAnExpression :=
        st.IsAnyArgumentNotAnExpression || eOpt.isNone }
    match eOpt with
    | none => st
    | some e =>
      let qt := e.info.qt
      let st := { st with
        IsAnyArgumentTypeNull :=
          st.IsAnyArgumentTypeNull || (qt.isNull || qt.typePtr.isNone) }
      match qt.typePtr with
      | some t => { st with IsAnyArgumentTypeVoid := t.isVoidType }
      | none => st

/-- The per-argument flags after the argument loop.  The loop and the
initializations `IsAnyArgumentNotAnExpression = false`,
`IsAnyArgumentTypeNull = false` (lines 951-952) run only inside the
macro-body block; `IsAnyArgumentNeverExpanded` and
`IsAnyArgumentTypeVoid` are never initialized before the loop and start
from their indeterminate values.  Outside the macro-body block none of
the four locals is ever assigned. -/
def argFlags (env : JunkEnv) (exp : MacroExpansionNode) : ArgFlagsState :=
  match inBodyBranch exp with
  | some _ =>
      exp.Arguments.foldl argLoopStep
        { IsAnyArgumentNeverExpanded := env.IsAnyArgumentNeverExpanded
          IsAnyArgumentNotAnExpression := false
          IsAnyArgumentTypeNull := false
          IsAnyArgumentTypeVoid := env.IsAnyArgumentTypeVoid }
  | none =>
      { IsAnyArgumentNeverExpanded := env.IsAnyArgumentNeverExpanded
        IsAnyArgumentNotAnExpression := env.IsAnyArgumentNotAnExpression
        IsAnyArgumentTypeNull := env.IsAnyArgumentTypeNull
        IsAnyArgumentTypeVoid := env.IsAnyArgumentTypeVoid }

/-- The top-level record computed for one emitted expansion (lines
603-1104), restricted to the modelled fields.  `env` supplies the
indeterminate values of the uninitialized `bool` locals. -/
def evalRecord (env : JunkEnv) (tu : TUContext) (exp : MacroExpansionNode) :
    RecordOut :=
  let af := argFlags env exp
  { Name := exp.Name
    ASTKind := astKind_code exp
    InvocationDepth := exp.Depth
    NumASTRoots := exp.ASTRoots.length
    NumArguments := exp.Arguments.length
    HasStringification := exp.HasStringification
    HasTokenPasting := exp.HasTokenPasting
    HasAlignedArguments := hasAlignedArguments exp
    HasSameNameAsOtherDeclaration := env.HasSameNameAsOtherDeclaration
    DoesExpansionHaveControlFlowStmt := doesExpansionHaveControlFlowStmt_code exp
    DoesBodyContainDeclRefExpr := doesBodyContainDeclRefExpr_code env tu exp
    IsHygienic := isHygienic_code env tu exp
    IsObjectLike := exp.isObjectLike
    IsInvokedInMacroArgument := exp.InMacroArg
    IsNamePresentInCPPConditional := tu.inspectedMacroNames.contains exp.Name
    IsExpansionICE := isExpansionICE_code env exp
    IsExpansionTypeNull := isExpansionTypeNull_code env exp
    IsExpansionTypeVoid := isExpansionTypeVoid_code env exp
    DoesAnyArgumentContainDeclRefExpr :=
      doesAnyArgumentContainDeclRefExpr_code env tu exp
    IsInvokedWhereICERequired := isInvokedWhereICERequired_code env exp
    IsAnyArgumentNeverExpanded := af.IsAnyArgumentNeverExpanded
    IsAnyArgumentNotAnExpression := af.IsAnyArgumentNotAnExpression
    IsAnyArgumentTypeNull := af.IsAnyArgumentTypeNull
    IsAnyArgumentTypeVoid := af.IsAnyArgumentTypeVoid }

/-- What the emitter produces for one expansion node: either a full
top-level record, or a single marker line.  The marker line layout
(`<label>\t<name>`) is that of `print` in the logging helper, modelled
from the spec: the logging helper is not part of the analyzed file. -/
inductive EmitOut where
  | record (r : RecordOut)
  | marker (line : String)
deriving DecidableEq

/-- Embeds the per-expansion dispatch of the emission loop (lines
593-601): nodes with non-zero depth or inside a macro argument produce
one marker line and nothing else; all other nodes produce the full
record. -/
def emitExpansion (env : JunkEnv) (tu : TUContext) (exp : MacroExpansionNode) :
    EmitOut :=
  if exp.Depth != 0 || exp.InMacroArg then
    .marker
      ((if exp.Depth != 0 then "Nested Invocation" else "Invoked In Macro Argument")
        ++ "\t" ++ exp.Name)
  else .record (evalRecord env tu exp)

/-- The invariant claimed for the body and argument subtree sets of a
top-level expansion with aligned root `R`: the two sets are disjoint and
their union is contained in the transitive subtrees of `R` (membership by
node identity, as in the C++ pointer sets). -/
def bodyAndArgSetsOk (exp : MacroExpansionNode) (R : Stmt) : Bool :=
  ((stmtsExpandedFromBody exp).all
      (fun s => !(memNode s (stmtsExpandedFromArguments exp)))) &&
  ((stmtsExpandedFromBody exp ++ stmtsExpandedFromArguments exp).all
      (fun s => memNode s R.subnodes))

/-! Concrete inputs used by the counterexamples and witnesses below. -/

/-- Indeterminate environment in which every uninitialized local happens
to hold `true`. -/
def envT : JunkEnv :=
  ⟨true, true, true, true, true, true, true, true, true, true, true, true⟩

/-- Indeterminate environment in which every uninitialized local happens
to hold `false`. -/
def envF : JunkEnv :=
  ⟨false, false, false, false, false, false, false, false, false, false, false, false⟩

/-- A translation unit with no collected statements and no inspected
macro names. -/
def tu0 : TUContext := ⟨[], []⟩

/-- The `int` type as far as the evaluator inspects types. -/
def intTy : TypeV := ⟨false, false⟩

/-- A non-null `int` qualified type. -/
def intQT : QualType := ⟨false, some intTy⟩

/-- A top-level expansion whose aligned root is null (the aligner found
zero or several matches): for example `#define FOO 1 +` invoked where the
expansion merges with surrounding tokens. -/
def expNoRoot : MacroExpansionNode where
  Name := "FOO"
  Depth := 0
  InMacroArg := false
  isObjectLike := true
  HasStringification := false
  HasTokenPasting := false
  ASTRoots := []
  AlignedRoot := none
  Arguments := []

/-- An expression node of type `int` (for example the literal `1`). -/
def exprInt : Stmt := .mk ⟨1, .exprOther, ⟨false, false⟩, intQT, true, []⟩ []

/-- A top-level object-like expansion aligned with the `int` expression
`exprInt`: for example `#define ONE 1` invoked as `ONE`. -/
def expExprInt : MacroExpansionNode where
  Name := "ONE"
  Depth := 0
  InMacroArg := false
  isObjectLike := true
  HasStringification := false
  HasTokenPasting := false
  ASTRoots := [⟨false, some exprInt, none⟩]
  AlignedRoot := some ⟨false, some exprInt, none⟩
  Arguments := []

/-- The aligned root of the second argument of `expTwoArgs`. -/
def argNodeB : Stmt := .mk ⟨11, .exprOther, ⟨false, false⟩, intQT, false, []⟩ []

/-- The aligned statement of `expTwoArgs`, containing the expansion of
its second argument. -/
def rootTwoArgs : Stmt :=
  .mk ⟨10, .exprOther, ⟨false, false⟩, intQT, false, []⟩ [argNodeB]

/-- A top-level expansion of a two-parameter macro whose body uses only
the second parameter: `#define SND(a, b) b` invoked as `SND(x, y)`.  The
first argument is never expanded (zero aligned roots, zero expansions);
the second is expanded once and aligned. -/
def expTwoArgs : MacroExpansionNode where
  Name := "SND"
  Depth := 0
  InMacroArg := false
  isObjectLike := false
  HasStringification := false
  HasTokenPasting := false
  ASTRoots := [⟨false, some rootTwoArgs, none⟩]
  AlignedRoot := some ⟨false, some rootTwoArgs, none⟩
  Arguments := [⟨[], 0⟩, ⟨[⟨false, some argNodeB, none⟩], 1⟩]

/-- A nested invocation (depth 1). -/
def expNested : MacroExpansionNode where
  Name := "INNER"
  Depth := 1
  InMacroArg := false
  isObjectLike := true
  HasStringification := false
  HasTokenPasting := false
  ASTRoots := []
  AlignedRoot := none
  Arguments := []

/-- An invocation at depth 0 inside another macro's argument. -/
def expInArg : MacroExpansionNode where
  Name := "INARG"
  Depth := 0
  InMacroArg := true
  isObjectLike := true
  HasStringification := false
  HasTokenPasting := false
  ASTRoots := []
  AlignedRoot := none
  Arguments := []

/-- A `DeclRefExpr` referring to a local variable. -/
def dreLocal : Stmt := .mk ⟨21, .declRefExpr, ⟨true, true⟩, intQT, false, []⟩ []

/-- An expression containing a reference to a local variable, aligned
with `expHyg`: for example the expansion of `#define GET v` inside a
function with local `v`. -/
def rootHyg : Stmt := .mk ⟨20, .exprOther, ⟨false, false⟩, intQT, false, []⟩ [dreLocal]

/-- The translation unit containing `rootHyg`. -/
def tuHyg : TUContext := ⟨[rootHyg], []⟩

/-- A top-level object-like expansion aligned with `rootHyg`. -/
def expHyg : MacroExpansionNode where
  Name := "GET"
  Depth := 0
  InMacroArg := false
  isObjectLike := true
  HasStringification := false
  HasTokenPasting := false
  ASTRoots := [⟨false, some rootHyg, none⟩]
  AlignedRoot := some ⟨false, some rootHyg, none⟩
  Arguments := []

/-- An expression node whose transitive parents include a `CaseStmt`:
for example the expansion of `#define TWO 2` in `case TWO:`. -/
def exprInCase : Stmt :=
  .mk ⟨40, .exprOther, ⟨false, false⟩, intQT, true, [.otherNode, .caseStmt]⟩ []

/-- A top-level expansion aligned with `exprInCase`. -/
def expICE : MacroExpansionNode where
  Name := "TWO"
  Depth := 0
  InMacroArg := false
  isObjectLike := true
  HasStringification := false
  HasTokenPasting := false
  ASTRoots := [⟨false, some exprInCase, none⟩]
  AlignedRoot := some ⟨false, some exprInCase, none⟩
  Arguments := []

/-- Child node of `rootSets`. -/
def childOfRoot : Stmt := .mk ⟨31, .exprOther, ⟨false, false⟩, intQT, false, []⟩ []

/-- An aligned statement with one child, used as the aligned root `R` for
the subtree-set claims. -/
def rootSets : Stmt := .mk ⟨30, .exprOther, ⟨false, false⟩, intQT, false, []⟩ [childOfRoot]

/-- A node that is not a subtree of `rootSets`. -/
def strayNode : Stmt := .mk ⟨99, .exprOther, ⟨false, false⟩, intQT, false, []⟩ []

/-- A top-level expansion aligned with `rootSets` whose single argument
the aligner aligned with `strayNode`, a node outside the subtrees of
`rootSets`.  Nothing in the analyzed file prevents this: the argument
roots come from `findAlignedASTNodesForExpansion`, outside the analyzed
translation unit. -/
def expStray : MacroExpansionNode where
  Name := "STRAY"
  Depth := 0
  InMacroArg := false
  isObjectLike := false
  HasStringification := false
  HasTokenPasting := false
  ASTRoots := [⟨false, some rootSets, none⟩]
  AlignedRoot := some ⟨false, some rootSets, none⟩
  Arguments := [⟨[⟨false, some strayNode, none⟩], 1⟩]

/-- A top-level expansion aligned with `rootSets` whose single argument
is aligned with `childOfRoot`, a subtree of `rootSets`. -/
def expInside : MacroExpansionNode where
  Name := "INSIDE"
  Depth := 0
  InMacroArg := false
  isObjectLike := false
  HasStringification := false
  HasTokenPasting := false
  ASTRoots := [⟨false, some rootSets, none⟩]
  AlignedRoot := some ⟨false, some rootSets, none⟩
  Arguments := [⟨[⟨false, some childOfRoot, none⟩], 1⟩]

/-! Helper lemmas about the embedded subtree collections. -/

/-- Membership in the concatenated subtree lists of a statement list. -/
theorem mem_subnodesList_iff {y : Stmt} :
    ∀ l : List Stmt, (y ∈ Stmt.subnodesList l ↔ ∃ c ∈ l, y ∈ c.subnodes)
  | [] => by simp [Stmt.subnodesList]
  | c :: cs => by
      simp only [Stmt.subnodesList, List.mem_append, List.mem_cons,
        mem_subnodesList_iff cs]
      constructor
      · rintro (h | ⟨c', hc', hy⟩)
        · exact ⟨c, Or.inl rfl, h⟩
        · exact ⟨c', Or.inr hc', hy⟩
      · rintro ⟨c', (rfl | hc'), hy⟩
        · exact Or.inl hy
        · exact Or.inr ⟨c', hc', hy⟩

/-- A subtree of a subtree of `s` is a subtree of `s`. -/
theorem subnodes_trans :
    ∀ (s : Stmt), ∀ x ∈ s.subnodes, ∀ y ∈ x.subnodes, y ∈ s.subnodes
  | .mk i cs => by
      intro x hx y hy
      rw [Stmt.subnodes] at hx ⊢
      rcases List.mem_cons.mp hx with h | h
      · subst h
        rw [Stmt.subnodes] at hy
        exact hy
      · obtain ⟨c, hc, hxc⟩ := (mem_subnodesList_iff cs).mp h
        have hyc : y ∈ c.subnodes := subnodes_trans c x hxc y hy
        exact List.mem_cons_of_mem _
          ((mem_subnodesList_iff cs).mpr ⟨c, hc, hyc⟩)
termination_by s => sizeOf s
decreasing_by
  simp only [Stmt.mk.sizeOf_spec]
  have := List.sizeOf_lt_of_mem hc
  omega

/-- Identity membership holds iff some node of the list carries the same
`sid`. -/
theorem memNode_iff {x : Stmt} {l : List Stmt} :
    memNode x l = true ↔ ∃ y ∈ l, y.info.sid = x.info.sid := by
  simp [memNode, List.any_eq_true]

/-- Actual list membership implies identity membership. -/
theorem memNode_of_mem {x : Stmt} {l : List Stmt} (h : x ∈ l) :
    memNode x l = true :=
  memNode_iff.mpr ⟨x, h, rfl⟩

/-- A subtree of a node of the translation unit is a node of the
translation unit. -/
theorem mem_allNodes_of_subnode {tu : TUContext} {s x : Stmt}
    (hs : s ∈ allNodes tu) (hx : x ∈ s.subnodes) : x ∈ allNodes tu := by
  unfold allNodes at hs ⊢
  obtain ⟨c, hc, hsc⟩ := (mem_subnodesList_iff tu.tuRoots).mp hs
  exact (mem_subnodesList_iff tu.tuRoots).mpr
    ⟨c, hc, subnodes_trans c s hsc x hx⟩

/-- When the macro-body block runs with aligned statement `st`, the body
set consists of subtrees of `st`. -/
theorem mem_body_sub_subnodes {exp : MacroExpansionNode} {st : Stmt}
    (hb : inBodyBranch exp = some st) :
    ∀ s ∈ stmtsExpandedFromBody exp, s ∈ st.subnodes := by
  intro s hs
  unfold stmtsExpandedFromBody at hs
  rw [hb] at hs
  exact List.mem_of_mem_filter hs

/-- The macro-body block runs exactly when the expansion has an aligned
statement and aligned arguments. -/
theorem inBodyBranch_eq {exp : MacroExpansionNode} {root : DSTL} {st : Stmt}
    (hroot : exp.AlignedRoot = some root) (hst : root.ST = some st)
    (haa : hasAlignedArguments exp = true) :
    inBodyBranch exp = some st := by
  simp [inBodyBranch, alignedStmt, hroot, hst, haa]

/-- The worklist search succeeds iff some enqueued ancestor satisfies the
per-ancestor test. -/
theorem searchAncestors_iff :
    ∀ l : List DynNodeKind,
      (searchAncestors l = true ↔ ∃ k ∈ l, nodeRequiresICE k = true)
  | [] => by simp [searchAncestors]
  | k :: rest => by
      by_cases h : nodeRequiresICE k = true
      · simp [searchAncestors, h]
      · simp [searchAncestors, h, searchAncestors_iff rest]

/-- The per-ancestor test succeeds exactly on the four qualifying node
shapes: a case label, an enum declaration, a bit-field declarator, a
variable declarator of (non-null) array type. -/
theorem nodeRequiresICE_iff (k : DynNodeKind) :
    nodeRequiresICE k = true ↔
      (k = DynNodeKind.caseStmt ∨ k = DynNodeKind.enumDecl ∨
        k = DynNodeKind.fieldDecl true ∨
        ∃ qt t, k = DynNodeKind.varDecl qt ∧ qt.isNull = false ∧
          qt.typePtr = some t ∧ t.isArrayType = true) := by
  cases k with
  | caseStmt => simp [nodeRequiresICE]
  | enumDecl => simp [nodeRequiresICE]
  | fieldDecl b => cases b <;> simp [nodeRequiresICE]
  | varDecl qt =>
      obtain ⟨n, tp⟩ := qt
      cases n <;> cases tp <;> simp [nodeRequiresICE]
  | otherNode => simp [nodeRequiresICE]

/-- The result of the strip loop is never a `ParenExpr` or
`ImplicitCastExpr`. -/
theorem skipSome_shape :
    ∀ e : CExpr, skipSome e = none ∨ ∃ t, skipSome e = some (CExpr.otherExpr t)
  | .parenExpr s => skipSome_shape s
  | .parenExprNull => Or.inl rfl
  | .implicitCastExpr s => skipSome_shape s
  | .implicitCastExprNull => Or.inl rfl
  | .otherExpr t => Or.inr ⟨t, rfl⟩

/-! Claim theorems. -/

/-- C10: `skipImplicitAndParens` is idempotent — applying it twice equals
applying it once, for every expression including null — and its result is
either null or an expression that is neither a `ParenExpr` nor an
`ImplicitCastExpr`. -/
theorem c10_skipImplicitAndParens_idempotent_and_stripped (E : Option CExpr) :
    skipImplicitAndParens (skipImplicitAndParens E) = skipImplicitAndParens E ∧
    (skipImplicitAndParens E = none ∨
      ∃ r, skipImplicitAndParens E = some r ∧
        r.isParenExpr = false ∧ r.isImplicitCastExpr = false) := by
  cases E with
  | none => exact ⟨rfl, Or.inl rfl⟩
  | some e =>
    have h1 : skipImplicitAndParens (some e) = skipSome e := rfl
    rcases skipSome_shape e with h | ⟨t, h⟩
    · constructor
      · rw [h1, h]
        rfl
      · rw [h1, h]
        exact Or.inl rfl
    · constructor
      · rw [h1, h]
        rfl
      · rw [h1, h]
        exact Or.inr ⟨.otherExpr t, rfl, rfl, rfl⟩

/-- C5: the emission loop emits a node with depth 0 that is not inside a
macro argument as a full record; every other node is emitted as exactly
one marker line, `Nested Invocation\t<name>` when its depth is nonzero
and `Invoked In Macro Argument\t<name>` otherwise, with no record
fields. -/
theorem c5_per_expansion_emission_dichotomy
    (env : JunkEnv) (tu : TUContext) (exp : MacroExpansionNode) :
    ((∃ r, emitExpansion env tu exp = EmitOut.record r) ↔
      (exp.Depth = 0 ∧ exp.InMacroArg = false)) ∧
    (exp.Depth ≠ 0 →
      emitExpansion env tu exp =
        EmitOut.marker ("Nested Invocation\t" ++ exp.Name)) ∧
    (exp.Depth = 0 → exp.InMacroArg = true →
      emitExpansion env tu exp =
        EmitOut.marker ("Invoked In Macro Argument\t" ++ exp.Name)) := by
  unfold emitExpansion
  by_cases hd : exp.Depth = 0 <;> by_cases hm : exp.InMacroArg = true <;>
    simp [hd, hm]

/-- C5 witness: a nested invocation (depth 1) is emitted as exactly the
marker line `Nested Invocation\tINNER`. -/
theorem c5_witness :
    emitExpansion envT tu0 expNested =
      EmitOut.marker ("Nested Invocation\t" ++ expNested.Name) :=
  (c5_per_expansion_emission_dichotomy envT tu0 expNested).2.1 (by decide)

/-- C1: refuted as stated — on a record whose aligned root is null, the
flags whose computation is not applicable are not emitted as `false`:
they are emitted with the indeterminate value of an uninitialized local
(here `IsHygienic`, which the source assigns only inside the macro-body
block).  The record itself is still emitted in full, as the claim says. -/
theorem c1_inapplicable_flag_not_defaulted_to_false :
    (∀ env : JunkEnv,
      emitExpansion env tu0 expNoRoot =
        EmitOut.record (evalRecord env tu0 expNoRoot)) ∧
    expNoRoot.AlignedRoot = none ∧
    (∀ env : JunkEnv,
      (evalRecord env tu0 expNoRoot).IsHygienic = env.IsHygienic) ∧
    (evalRecord envT tu0 expNoRoot).IsHygienic = true :=
  ⟨fun _ => rfl, rfl, fun _ => rfl, rfl⟩

/-- C2: refuted as stated — for a top-level expansion aligned to an
expression with a non-null type and all arguments aligned, the source
computes `IsExpansionTypeNull = !(QT.isNull() || T == nullptr)` (line
930) and therefore emits `true` although the expression's type is not
null. -/
theorem c2_isExpansionTypeNull_inverted :
    (∀ env : JunkEnv,
      (evalRecord env tu0 expExprInt).IsExpansionTypeNull = true) ∧
    exprInt.info.qt.isNull = false ∧
    exprInt.info.qt.typePtr.isNone = false ∧
    expExprInt.AlignedRoot = some ⟨false, some exprInt, none⟩ ∧
    hasAlignedArguments expExprInt = true :=
  ⟨fun _ => rfl, rfl, rfl, rfl, rfl⟩

/-- C3: refuted as stated — `HasSameNameAsOtherDeclaration` is never
assigned anywhere in the record computation, so it is emitted with the
indeterminate value of its uninitialized local, not with the constant
`false`: under the environment in which the junk value is `true` the
emitted value is `true`. -/
theorem c3_hasSameName_is_uninitialized :
    (∀ (env : JunkEnv) (tu : TUContext) (exp : MacroExpansionNode),
      (evalRecord env tu exp).HasSameNameAsOtherDeclaration =
        env.HasSameNameAsOtherDeclaration) ∧
    (evalRecord envT tu0 expNoRoot).HasSameNameAsOtherDeclaration = true :=
  ⟨fun _ _ _ => rfl, rfl⟩

/-- C4: refuted as stated — the argument loop assigns
`IsAnyArgumentNeverExpanded = Arg.AlignedRoots.empty()` with a plain `=`
(line 966), so the emitted value reflects only the last argument.  On a
two-argument expansion whose first argument is never expanded and whose
second is aligned, the emitted flag is `false` although an argument with
empty `AlignedRoots` exists. -/
theorem c4_isAnyArgumentNeverExpanded_last_argument_wins :
    (∀ env : JunkEnv,
      (evalRecord env tu0 expTwoArgs).IsAnyArgumentNeverExpanded = false) ∧
    expTwoArgs.Arguments.any (fun a => a.AlignedRoots.isEmpty) = true ∧
    hasAlignedArguments expTwoArgs = true :=
  ⟨fun _ => rfl, rfl, rfl⟩

/-- C9: refuted as stated — the emitted record is not a function of the
input alone: it also depends on the indeterminate values of the
uninitialized boolean locals, so two runs on the same input need not
produce identical output.  The same translation unit and expansion yield
different outputs under two indeterminate environments. -/
theorem c9_output_not_determined_by_input :
    emitExpansion envT tu0 expNoRoot ≠ emitExpansion envF tu0 expNoRoot := by
  decide

/-- C7: for a top-level expansion with a statement-shaped aligned root
and all arguments aligned, `IsInvokedWhereICERequired` is true iff the
aligned statement has a transitive parent that is a case label, an enum
declaration (the context of an enumerator), a bit-field declarator, or a
variable declarator of array type (the context of an array bound). -/
theorem c7_isInvokedWhereICERequired_iff_qualifying_ancestor
    (env : JunkEnv) (tu : TUContext) (exp : MacroExpansionNode)
    (root : DSTL) (st : Stmt)
    (hroot : exp.AlignedRoot = some root) (hst : root.ST = some st)
    (haa : hasAlignedArguments exp = true) :
    (evalRecord env tu exp).IsInvokedWhereICERequired = true ↔
      ∃ k ∈ st.info.ancestors,
        (k = DynNodeKind.caseStmt ∨ k = DynNodeKind.enumDecl ∨
          k = DynNodeKind.fieldDecl true ∨
          ∃ qt t, k = DynNodeKind.varDecl qt ∧ qt.isNull = false ∧
            qt.typePtr = some t ∧ t.isArrayType = true) := by
  have hb := inBodyBranch_eq hroot hst haa
  have hp : (evalRecord env tu exp).IsInvokedWhereICERequired =
      isInvokedWhereICERequired_code env exp := rfl
  rw [hp]
  simp only [isInvokedWhereICERequired_code, hb, isDescendantOfStmtRequiringICE]
  rw [searchAncestors_iff]
  constructor
  · rintro ⟨k, hk, hq⟩
    exact ⟨k, hk, (nodeRequiresICE_iff k).mp hq⟩
  · rintro ⟨k, hk, hq⟩
    exact ⟨k, hk, (nodeRequiresICE_iff k).mpr hq⟩

/-- C7 witness: an expansion aligned to an expression whose parents
include a case label is flagged as invoked where an integer constant
expression is required. -/
theorem c7_witness :
    (evalRecord envT tu0 expICE).IsInvokedWhereICERequired = true :=
  (c7_isInvokedWhereICERequired_iff_qualifying_ancestor envT tu0 expICE
    ⟨false, some exprInCase, none⟩ exprInCase rfl rfl rfl).mpr
    ⟨DynNodeKind.caseStmt, by decide, Or.inl rfl⟩

/-- C6: for a top-level expansion with a statement-shaped aligned root
and all arguments aligned, `IsHygienic` is true iff the body-subtree set
contains no `DeclRefExpr` referring to a declaration with local
(non-file) storage, i.e. a variable declaration with
`hasLocalStorage()`. -/
theorem c6_isHygienic_iff_no_local_declref_in_body
    (env : JunkEnv) (tu : TUContext) (exp : MacroExpansionNode)
    (root : DSTL) (st : Stmt)
    (hroot : exp.AlignedRoot = some root) (hst : root.ST = some st)
    (haa : hasAlignedArguments exp = true)
    (hmem : st ∈ allNodes tu)
    (hnodup : ((allNodes tu).map (fun s => s.info.sid)).Nodup) :
    (evalRecord env tu exp).IsHygienic = true ↔
      ¬ ∃ d ∈ stmtsExpandedFromBody exp,
          d.info.kind = StmtKind.declRefExpr ∧
          d.info.decl.isVarDecl = true ∧
          d.info.decl.hasLocalStorage = true := by
  have hb := inBodyBranch_eq hroot hst haa
  have hp : (evalRecord env tu exp).IsHygienic = isHygienic_code env tu exp := rfl
  rw [hp]
  simp only [isHygienic_code, hb]
  rw [Bool.not_eq_true']
  constructor
  · intro hfalse
    rintro ⟨d, hd, hkind, hvar, hloc⟩
    have hdsub : d ∈ st.subnodes := mem_body_sub_subnodes hb d hd
    have hdall : d ∈ allNodes tu := mem_allNodes_of_subnode hmem hdsub
    have hdref : d ∈ allDeclRefExprs tu := by
      refine List.mem_filter.mpr ⟨hdall, ?_⟩
      simp [hkind]
    have hdlocal : d ∈ declRefExprsOfLocallyDefinedDecls tu := by
      refine List.mem_filter.mpr ⟨hdref, ?_⟩
      rw [hvar, hloc]
      rfl
    have hany : (declRefExprsOfLocallyDefinedDecls tu).any
        (fun d => memNode d (stmtsExpandedFromBody exp)) = true :=
      List.any_eq_true.mpr ⟨d, hdlocal, memNode_of_mem hd⟩
    rw [hfalse] at hany
    cases hany
  · intro hno
    by_contra hne
    have hany : (declRefExprsOfLocallyDefinedDecls tu).any
        (fun d => memNode d (stmtsExpandedFromBody exp)) = true := by
      cases h : (declRefExprsOfLocallyDefinedDecls tu).any
          (fun d => memNode d (stmtsExpandedFromBody exp)) with
      | false => exact absurd h hne
      | true => rfl
    obtain ⟨dre, hdre, hmemN⟩ := List.any_eq_true.mp hany
    obtain ⟨b, hbmem, hbsid⟩ := memNode_iff.mp hmemN
    have hsubb : b ∈ st.subnodes := mem_body_sub_subnodes hb b hbmem
    have hball : b ∈ allNodes tu := mem_allNodes_of_subnode hmem hsubb
    have hdreall : dre ∈ allNodes tu :=
      List.mem_of_mem_filter (List.mem_of_mem_filter hdre)
    have hbe : b = dre := List.inj_on_of_nodup_map hnodup hball hdreall hbsid
    subst hbe
    have h1 := List.mem_filter.mp hdre
    have h2 := List.mem_filter.mp h1.1
    have h3 := h1.2
    rw [Bool.and_eq_true] at h3
    apply hno
    exact ⟨b, hbmem, of_decide_eq_true h2.2, h3.1, h3.2⟩

/-- C6 witness: on the expansion `expHyg`, whose body contains a
reference to a local variable, the equivalence is established with all
hypotheses discharged concretely. -/
theorem c6_witness :
    (evalRecord envT tuHyg expHyg).IsHygienic = true ↔
      ¬ ∃ d ∈ stmtsExpandedFromBody expHyg,
          d.info.kind = StmtKind.declRefExpr ∧
          d.info.decl.isVarDecl = true ∧
          d.info.decl.hasLocalStorage = true :=
  c6_isHygienic_iff_no_local_declref_in_body envT tuHyg expHyg
    ⟨false, some rootHyg, none⟩ rootHyg rfl rfl rfl (by decide) (by decide)

/-- C8: refuted as stated — the analyzed file builds the argument-subtree
set from whatever aligned roots the aligner attached to the arguments and
never checks that they lie under the aligned root `R`, so the union of
the two sets need not be contained in the transitive subtrees of `R`:
on `expStray` the single argument's aligned root lies outside `R`. -/
theorem c8_counterexample_union_not_contained :
    expStray.AlignedRoot = some ⟨false, some rootSets, none⟩ ∧
    hasAlignedArguments expStray = true ∧
    bodyAndArgSetsOk expStray rootSets = false := by
  refine ⟨rfl, rfl, ?_⟩
  decide

/-- C8 (amended): the body-subtree set and the argument-subtree set are
always disjoint — unconditionally, by the identity-`erase` construction
of the body set; and when every aligned root of every argument is itself
a subtree of the aligned root `R`, their union is additionally contained
in the transitive subtrees of `R`. -/
theorem c8_amended_disjoint_and_conditionally_contained
    (exp : MacroExpansionNode) (root : DSTL) (R : Stmt)
    (hroot : exp.AlignedRoot = some root) (hST : root.ST = some R) :
    (∀ s ∈ stmtsExpandedFromBody exp,
        memNode s (stmtsExpandedFromArguments exp) = false) ∧
    ((∀ a ∈ exp.Arguments, ∀ r ∈ a.AlignedRoots,
        ∀ st, r.ST = some st → st ∈ R.subnodes) →
      bodyAndArgSetsOk exp R = true) := by
  have hdisj : ∀ s ∈ stmtsExpandedFromBody exp,
      memNode s (stmtsExpandedFromArguments exp) = false := by
    intro s hs
    unfold stmtsExpandedFromBody at hs
    cases hb : inBodyBranch exp with
    | none =>
        rw [hb] at hs
        cases hs
    | some st =>
        rw [hb] at hs
        simpa using (List.mem_filter.mp hs).2
  refine ⟨hdisj, fun hargs => ?_⟩
  unfold bodyAndArgSetsOk
  rw [Bool.and_eq_true, List.all_eq_true, List.all_eq_true]
  refine ⟨fun s hs => by rw [hdisj s hs]; rfl, ?_⟩
  by_cases haa : hasAlignedArguments exp = true
  · have hb : inBodyBranch exp = some R := inBodyBranch_eq hroot hST haa
    intro s hs
    rcases List.mem_append.mp hs with h | h
    · exact memNode_of_mem (mem_body_sub_subnodes hb s h)
    · unfold stmtsExpandedFromArguments at h
      rw [if_pos haa] at h
      obtain ⟨a, ha, h2⟩ := List.mem_flatMap.mp h
      obtain ⟨r, hr, h3⟩ := List.mem_flatMap.mp h2
      cases hrst : r.ST with
      | none =>
          rw [hrst] at h3
          cases h3
      | some st' =>
          rw [hrst] at h3
          have hstR : st' ∈ R.subnodes := hargs a ha r hr st' hrst
          exact memNode_of_mem (subnodes_trans R st' hstR s h3)
  · have hb : inBodyBranch exp = none := by
      unfold inBodyBranch
      cases halign : alignedStmt exp with
      | none => rfl
      | some st => simp [haa]
    have hbody : stmtsExpandedFromBody exp = [] := by
      unfold stmtsExpandedFromBody
      rw [hb]
    have hargsEmpty : stmtsExpandedFromArguments exp = [] := by
      unfold stmtsExpandedFromArguments
      rw [if_neg haa]
    rw [hbody, hargsEmpty]
    intro s hs
    cases hs

/-- C8 amended witness: on `expStray` — whose argument root lies outside
the aligned root — the two sets are nevertheless disjoint; and on
`expInside`, whose argument is aligned with a subtree of the aligned
root, the full invariant holds. -/
theorem c8_amended_witness :
    (∀ s ∈ stmtsExpandedFromBody expStray,
        memNode s (stmtsExpandedFromArguments expStray) = false) ∧
    bodyAndArgSetsOk expInside rootSets = true :=
  ⟨(c8_amended_disjoint_and_conditionally_contained expStray
      ⟨false, some rootSets, none⟩ rootSets rfl rfl).1,
   (c8_amended_disjoint_and_conditionally_contained expInside
      ⟨false, some rootSets, none⟩ rootSets rfl rfl).2
    (by
      intro a ha r hr st hst
      rw [show expInside.Arguments =
        [⟨[⟨false, some childOfRoot, none⟩], 1⟩] from rfl] at ha
      rcases List.mem_singleton.mp ha with rfl
      rcases List.mem_singleton.mp hr with rfl
      cases hst
      decide)⟩

end cpp2c
